import Mathlib

/-!
Verification development for the LeadGather scraper (`leadgather.py`).

The extraction pipeline of `BizBuySellScraper` is shallowly embedded:
a parsed page is a rose tree of element/text nodes, the block-locator
cascade, per-field resolution, the extraction loop with its per-listing
exception isolation, the raw-page fallback, the JSON/CSV export and the
console summary are translated as executable Lean functions.
-/

namespace LeadGather

/-! ## String helpers (Python `in`, `startswith`, `lower`, `strip`) -/

/-- Boolean list-prefix test, `charsPrefix p l` iff `p` is a prefix of `l`. -/
def charsPrefix : List Char → List Char → Bool
  | [], _ => true
  | _ :: _, [] => false
  | a :: as, b :: bs => a == b && charsPrefix as bs

/-- Boolean contiguous-sublist test: `charsInfix n h` iff `n` occurs inside `h`. -/
def charsInfix (n : List Char) : List Char → Bool
  | [] => charsPrefix n []
  | c :: t => charsPrefix n (c :: t) || charsInfix n t

/-- Python `sub in h` on strings: substring containment. -/
def strContains (h sub : String) : Bool := charsInfix sub.data h.data

/-- Python `s.startswith(p)`. -/
def strStartsWith (s p : String) : Bool := charsPrefix p.data s.data

/-- Whitespace characters removed by Python `str.strip()`. -/
def isWsChar (c : Char) : Bool :=
  c == ' ' || c == '\t' || c == '\n' || c == '\r' || c == '\x0b' || c == '\x0c'

/-- Python `str.strip()`: drop leading and trailing whitespace. -/
def strTrim (s : String) : String :=
  ⟨((s.data.dropWhile isWsChar).reverse.dropWhile isWsChar).reverse⟩

/-- Python `str.lower()` (ASCII case folding). -/
def strLower (s : String) : String := ⟨s.data.map Char.toLower⟩

/-- Join strings with single spaces (serialized form of a class list). -/
def joinSp : List String → String
  | [] => ""
  | [s] => s
  | s :: rest => s ++ " " ++ joinSp rest

/-! ## DOM model

A parsed page (BeautifulSoup tree) is modelled as a forest of nodes.
An element node carries its tag name, its class-attribute token list
(bs4 stores `class` as a multi-valued attribute), its remaining
attributes as key/value pairs, and its children. -/

mutual
inductive HNode where
  | text : String → HNode
  | elem : String → List String → List (String × String) → HForest → HNode

inductive HForest where
  | nil : HForest
  | cons : HNode → HForest → HForest
end

/-- Children forest as a plain list. -/
def HForest.toList : HForest → List HNode
  | .nil => []
  | .cons n f => n :: HForest.toList f

/-- Build a children forest from a list. -/
def HForest.ofList : List HNode → HForest
  | [] => .nil
  | n :: ns => .cons n (HForest.ofList ns)

/-- Tag name of a node (text nodes have none). -/
def HNode.tagName : HNode → String
  | .text _ => ""
  | .elem t _ _ _ => t

/-- Class-attribute token list of a node. -/
def HNode.classList : HNode → List String
  | .text _ => []
  | .elem _ cs _ _ => cs

/-- Non-class attributes of a node. -/
def HNode.attrList : HNode → List (String × String)
  | .text _ => []
  | .elem _ _ as _ => as

mutual
/-- All element nodes of a subtree in document (preorder) order,
including the root element itself; text nodes are not elements. -/
def elemsN : HNode → List HNode
  | .text _ => []
  | .elem t cs as ch => .elem t cs as ch :: elemsF ch

/-- All element nodes of a forest in document order. -/
def elemsF : HForest → List HNode
  | .nil => []
  | .cons n f => elemsN n ++ elemsF f
end

mutual
/-- All text-node contents of a subtree in document order
(the node's own string for a text node, descendant strings for an element). -/
def stringsN : HNode → List String
  | .text s => [s]
  | .elem _ _ _ ch => stringsF ch

/-- All text-node contents of a forest in document order. -/
def stringsF : HForest → List String
  | .nil => []
  | .cons n f => stringsN n ++ stringsF f
end

/-- Element nodes strictly below a node: the search scope of
`select_one` / `find` on a bs4 tag. -/
def descElems : HNode → List HNode
  | .text _ => []
  | .elem _ _ _ ch => elemsF ch

/-- `get_text()`: concatenation of all descendant strings. -/
def getTextRaw (n : HNode) : String :=
  String.join (stringsN n)

/-- `get_text(strip=True)`: each descendant string stripped, empties
dropped, then concatenated. -/
def getTextStrip (n : HNode) : String :=
  String.join (((stringsN n).map strTrim).filter (fun s => s != ""))

/-- `tag.get(key, default)`'s underlying lookup over the attribute pairs. -/
def attrGet (n : HNode) (k : String) : Option String :=
  List.lookup k n.attrList

/-- Presence of an attribute key (bs4 `attrs={key: True}` match). -/
def hasAttrKey (n : HNode) (k : String) : Bool :=
  n.attrList.any (fun p => p.1 == k)

/-! ## CSS selectors used by `_extract_listing_data`

The source only uses four selector shapes: a bare tag (`h2`, `p`), a bare
class (`.title`), tag-plus-class (`a.title`), and a class-attribute
substring match (`[class*="price"]`). -/

inductive Sel where
  | tagSel : String → Sel
  | clsSel : String → Sel
  | tagClsSel : String → String → Sel
  | clsAttrContains : String → Sel

/-- CSS matching of one selector against one element node. A class
selector matches a class token exactly; `[class*=v]` matches `v` as a
case-sensitive substring of the space-joined class attribute text. -/
def matchesSel (n : HNode) : Sel → Bool
  | .tagSel t => n.tagName == t
  | .clsSel c => n.classList.any (fun x => x == c)
  | .tagClsSel t c => n.tagName == t && n.classList.any (fun x => x == c)
  | .clsAttrContains v => strContains (joinSp n.classList) v

/-- `element.select_one(sel)`: first matching element among the strict
descendants, in document order. -/
def selectOne (n : HNode) (s : Sel) : Option HNode :=
  (descElems n).find? (fun e => matchesSel e s)

/-- First selector of the list that matches some descendant wins
(the per-field loop with `break` in `_extract_listing_data`). -/
def firstMatch (n : HNode) : List Sel → Option HNode
  | [] => none
  | s :: rest =>
    match selectOne n s with
    | some e => some e
    | none => firstMatch n rest

/-- `element.find(tag)`: first strict descendant with the given tag. -/
def findDescTag (n : HNode) (t : String) : Option HNode :=
  (descElems n).find? (fun e => e.tagName == t)

/-- `element.find(string=pred)`: first descendant text node satisfying
the predicate. -/
def findString (n : HNode) (p : String → Bool) : Option String :=
  (stringsN n).find? p

/-! ## Field resolution (`_extract_listing_data`) -/

/-- `self.base_url`. -/
def baseUrl : String := "https://www.bizbuysell.com"

/-- `title_selectors = ['h2', 'h3', 'h4', '.title', '.listing-title', 'a.title']`. -/
def titleSelectors : List Sel :=
  [.tagSel "h2", .tagSel "h3", .tagSel "h4", .clsSel "title",
   .clsSel "listing-title", .tagClsSel "a" "title"]

/-- `price_selectors = ['.price', '.listing-price', '.asking-price', '[class*="price"]']`. -/
def priceSelectors : List Sel :=
  [.clsSel "price", .clsSel "listing-price", .clsSel "asking-price",
   .clsAttrContains "price"]

/-- `location_selectors = ['.location', '.listing-location', '.address', '[class*="location"]']`. -/
def locationSelectors : List Sel :=
  [.clsSel "location", .clsSel "listing-location", .clsSel "address",
   .clsAttrContains "location"]

/-- `desc_selectors = ['.description', '.listing-description', '.summary', 'p']`. -/
def descSelectors : List Sel :=
  [.clsSel "description", .clsSel "listing-description", .clsSel "summary",
   .tagSel "p"]

/-- `data['link'] = href if href.startswith('http') else self.base_url + href`. -/
def resolveHref (href : String) : String :=
  if strStartsWith href "http" then href else baseUrl ++ href

/-- The title loop: first matching title selector supplies the trimmed
title text, and, when that element is an `a` or contains one, the link
resolved from that hyperlink's `href`. -/
def resolveTitleLink (node : HNode) : String × String :=
  match firstMatch node titleSelectors with
  | none => ("", "")
  | some e =>
    let t := getTextStrip e
    let linkElem : Option HNode :=
      if e.tagName == "a" then some e else findDescTag e "a"
    match linkElem with
    | none => (t, "")
    | some le =>
      let href := (attrGet le "href").getD ""
      if href == "" then (t, "") else (t, resolveHref href)

/-- The price/location/description loops: trimmed text of the first
selector that matches, else the empty string. -/
def resolveSel (node : HNode) (sels : List Sel) : String :=
  match firstMatch node sels with
  | some e => getTextStrip e
  | none => ""

/-- The revenue text-node predicate
(`lambda text: text and ('revenue' in text.lower() or 'sales' in text.lower())`). -/
def revenuePred (t : String) : Bool :=
  t != "" && (strContains (strLower t) "revenue" || strContains (strLower t) "sales")

/-- The cash-flow text-node predicate. -/
def cashFlowPred (t : String) : Bool :=
  t != "" && strContains (strLower t) "cash flow"

/-- Revenue resolution: pre-check the node's whole lower-cased text for
"revenue" or "sales"; only then take the first matching descendant text
node, stripped. -/
def resolveRevenue (node : HNode) : String :=
  let tc := strLower (getTextRaw node)
  if strContains tc "revenue" || strContains tc "sales" then
    match findString node revenuePred with
    | some t => strTrim t
    | none => ""
  else ""

/-- Cash-flow resolution: pre-check the node's whole lower-cased text for
"cash flow"; only then take the first matching descendant text node, stripped. -/
def resolveCashFlow (node : HNode) : String :=
  let tc := strLower (getTextRaw node)
  if strContains tc "cash flow" then
    match findString node cashFlowPred with
    | some t => strTrim t
    | none => ""
  else ""

/-! ## Listing records -/

/-- A record field value: the `index` entry is an integer, every other
entry is a string. -/
inductive FVal where
  | int : Nat → FVal
  | str : String → FVal
deriving DecidableEq

/-- A listing record is the Python dict: ordered key/value pairs. -/
abbrev Rec := List (String × FVal)

/-- Key lookup in a record. -/
def recLookup (r : Rec) (k : String) : Option FVal :=
  List.lookup k r

/-- The fixed key list of the dict literal in `_extract_listing_data`. -/
def recordKeys : List String :=
  ["index", "title", "price", "location", "description", "link",
   "revenue", "cash_flow"]

/-- `_extract_listing_data(listing_element, index)`: the dict built from
the per-field resolutions (fields keep their literal insertion order;
a field whose locators all miss keeps its initial empty string). -/
def extractListingData (node : HNode) (index : Nat) : Rec :=
  let tl := resolveTitleLink node
  [("index", .int index),
   ("title", .str tl.1),
   ("price", .str (resolveSel node priceSelectors)),
   ("location", .str (resolveSel node locationSelectors)),
   ("description", .str (resolveSel node descSelectors)),
   ("link", .str tl.2),
   ("revenue", .str (resolveRevenue node)),
   ("cash_flow", .str (resolveCashFlow node))]

/-! ## Block locator (the selector cascade in `scrape_listings`) -/

/-- A page is the forest of top-level parsed nodes. -/
abbrev Page := List HNode

/-- All element nodes of the whole page in document order
(the search space of `soup.find_all`). -/
def pageElems (page : Page) : List HNode :=
  page.flatMap elemsN

/-- `soup.find_all(tag, class_=c)`: all elements with that tag whose
class token list contains `c`. -/
def findAllTagClass (page : Page) (t c : String) : List HNode :=
  (pageElems page).filter (fun n => n.tagName == t && n.classList.any (fun x => x == c))

/-- `listing_selectors`: the fixed ordered tag/class pairs of strategy 1. -/
def listingSelectors : List (String × String) :=
  [("div", "listing-card"), ("div", "result"), ("article", "listing"),
   ("div", "business-listing"), ("div", "listing")]

/-- The strategy-1 loop: first tag/class pair with a non-empty
`find_all` result wins; all pairs empty gives the empty list. -/
def firstSelectorHit (page : Page) : List (String × String) → List HNode
  | [] => []
  | (t, c) :: rest =>
    let r := findAllTagClass page t c
    if r.isEmpty then firstSelectorHit page rest else r

/-- Strategy 1: the fixed ordered tag/class pair list. -/
def strategy1 (page : Page) : List HNode :=
  firstSelectorHit page listingSelectors

/-- Strategy 2: `soup.find_all('div', {'data-listing-id': True})`. -/
def strategy2 (page : Page) : List HNode :=
  (pageElems page).filter (fun n => n.tagName == "div" && hasAttrKey n "data-listing-id")

/-- Strategy 3: `soup.find_all('article')`. -/
def strategy3 (page : Page) : List HNode :=
  (pageElems page).filter (fun n => n.tagName == "article")

/-- The class predicate of strategy 4
(`lambda x: x and ('listing' in x.lower() or 'result' in x.lower())`),
applied by bs4 to each class token and to the space-joined class text. -/
def classFuzzyMatch (cs : List String) : Bool :=
  cs.any (fun t =>
      t != "" && (strContains (strLower t) "listing" || strContains (strLower t) "result"))
    || (let j := joinSp cs
        j != "" && (strContains (strLower j) "listing" || strContains (strLower j) "result"))

/-- Strategy 4: `soup.find_all('div', class_=lambda x: ...)` — div tags
only, fuzzy class match. -/
def strategy4 (page : Page) : List HNode :=
  (pageElems page).filter (fun n => n.tagName == "div" && classFuzzyMatch n.classList)

/-- The block-locator cascade of `scrape_listings` exactly as coded:
strategy 1, else the data-attribute strategy, else articles, else the
fuzzy div strategy. -/
def locateBlocks (page : Page) : List HNode :=
  let fl := strategy1 page
  let fl := if fl.isEmpty then strategy2 page else fl
  if fl.isEmpty then
    let a := strategy3 page
    if a.isEmpty then strategy4 page else a
  else fl

/-- Spec-side description of a cascade: the first non-empty strategy
result wins; all empty gives the empty list. -/
def cascadeFirst : List (List HNode) → List HNode
  | [] => []
  | l :: rest => if l.isEmpty then cascadeFirst rest else l

/-- Modelled from the spec (claim C7's reading of step 4): collect nodes
of ANY tag whose class attribute fuzzily contains "listing" or "result".
The source restricts step 4 to `div` tags; this definition follows the
claim's words for comparison. -/
def fuzzyClassAllTags (page : Page) : List HNode :=
  (pageElems page).filter (fun n => classFuzzyMatch n.classList)

/-! ## Extraction loop (`for idx, listing in enumerate(found_listings, 1)`) -/

/-- One pass of the extraction loop over located nodes, starting at the
given 1-based index. The per-node extractor returns `none` when field
resolution raises (the `except` branch: the listing is skipped and the
loop continues); a truthy (non-empty) dict is appended. -/
def extractLoop (f : HNode → Nat → Option Rec) : Nat → List HNode → List Rec
  | _, [] => []
  | i, n :: ns =>
    (match f n i with
     | some d => if d.isEmpty then [] else [d]
     | none => []) ++ extractLoop f (i + 1) ns

/-- The non-raising extractor: `_extract_listing_data` as embedded here
is total, so it always succeeds. -/
def extractTotal (n : HNode) (i : Nat) : Option Rec :=
  some (extractListingData n i)

/-- Records produced for a page: locate blocks, then run the extraction
loop from index 1. -/
def extractRecords (page : Page) : List Rec :=
  extractLoop extractTotal 1 (locateBlocks page)

/-! ## Raw-page fallback and the scrape entry point -/

/-- The fallback artifact: the verbatim page markup written to
`page_content.html`, plus the page title's stripped text when a `title`
element exists. -/
structure RawPageFallback where
  markup : String
  pageTitle : Option String

/-- `soup.find('title')`. -/
def pageTitleElem (page : Page) : Option HNode :=
  (pageElems page).find? (fun n => n.tagName == "title")

/-- `scrape_listings`: the fetch/parse collaborator either fails (the
outer `except` returns an empty list, writing nothing) or yields the
page markup and its parsed forest; on success the records are extracted
and, exactly when none were produced, the raw-page fallback is written. -/
def scrapeListings (fetch : Option (String × Page)) : List Rec × Option RawPageFallback :=
  match fetch with
  | none => ([], none)
  | some (src, page) =>
    let listings := extractRecords page
    if listings.isEmpty then
      (listings, some ⟨src, (pageTitleElem page).map getTextStrip⟩)
    else
      (listings, none)

/-! ## JSON export (`save_to_json`)

`json.dump(listings, f, indent=2, ensure_ascii=False)` is embedded as a
character-exact serializer: two-space indentation, `", "`-free item
separators with newlines, `": "` key separators, and the string-escape
table of the `json` module with `ensure_ascii=False` (only `"`, `\` and
control characters are escaped; everything else, non-ASCII included, is
emitted literally). `json.loads` is embedded as `loads`. -/

/-- Lower-case hex digit for a value below 16. -/
def hexDigitChar (n : Nat) : Char :=
  if n < 10 then Char.ofNat (48 + n) else Char.ofNat (87 + n)

/-- The `ensure_ascii=False` escape of one character: `\"`, `\\`, the
short escapes for backspace, form feed, newline, carriage return and tab,
`\u00XX` for the remaining control characters, and everything else
verbatim. -/
def escChar (c : Char) : List Char :=
  if c == '"' then ['\\', '"']
  else if c == '\\' then ['\\', '\\']
  else if c == '\x08' then ['\\', 'b']
  else if c == '\x0c' then ['\\', 'f']
  else if c == '\n' then ['\\', 'n']
  else if c == '\r' then ['\\', 'r']
  else if c == '\t' then ['\\', 't']
  else if c.toNat < 32 then
    ['\\', 'u', '0', '0', hexDigitChar (c.toNat / 16), hexDigitChar (c.toNat % 16)]
  else [c]

/-- Escaped body of a JSON string literal. -/
def escString (s : String) : List Char :=
  s.data.flatMap escChar

/-- A JSON string literal with its quotes. -/
def encodeStr (s : String) : List Char :=
  '"' :: (escString s ++ ['"'])

/-- Decimal digits of a natural number, most significant first
(accumulator form). -/
def natToDecAux : Nat → List Char → List Char
  | 0, acc => acc
  | n + 1, acc => natToDecAux ((n + 1) / 10) (Char.ofNat (48 + (n + 1) % 10) :: acc)
decreasing_by exact Nat.div_lt_self (Nat.succ_pos n) (by omega)

/-- Decimal rendering of a natural number (Python `str(int)`). -/
def natToDec (n : Nat) : List Char :=
  if n = 0 then ['0'] else natToDecAux n []

/-- JSON rendering of one field value. -/
def dumpVal : FVal → List Char
  | .int n => natToDec n
  | .str s => encodeStr s

/-- Separator between object entries at `indent=2` nesting depth 2. -/
def entrySep : List Char := [',', '\n', ' ', ' ', ' ', ' ']

/-- Separator between array items at `indent=2` nesting depth 1. -/
def itemSep : List Char := [',', '\n', ' ', ' ']

/-- One `"key": value` entry. -/
def dumpEntry (e : String × FVal) : List Char :=
  encodeStr e.1 ++ [':', ' '] ++ dumpVal e.2

/-- Entries of one record joined by the entry separator. -/
def dumpRecBody : Rec → List Char
  | [] => []
  | [e] => dumpEntry e
  | e :: rest => dumpEntry e ++ entrySep ++ dumpRecBody rest

/-- One record as an indented JSON object. -/
def dumpRec (r : Rec) : List Char :=
  match r with
  | [] => ['\x7b', '\x7d']
  | _ => '\x7b' :: '\n' :: ' ' :: ' ' :: ' ' :: ' ' ::
      (dumpRecBody r ++ ['\n', ' ', ' ', '\x7d'])

/-- Records joined by the item separator. -/
def dumpsBody : List Rec → List Char
  | [] => []
  | [r] => dumpRec r
  | r :: rest => dumpRec r ++ itemSep ++ dumpsBody rest

/-- The full `json.dump(listings, indent=2, ensure_ascii=False)` text. -/
def dumpsChars (l : List Rec) : List Char :=
  match l with
  | [] => ['[', ']']
  | _ => '[' :: '\n' :: ' ' :: ' ' :: (dumpsBody l ++ ['\n', ']'])

/-- `save_to_json`: the file contents written for a record list. -/
def dumps (l : List Rec) : String := ⟨dumpsChars l⟩

/-! ### The JSON reader (`json.loads`) -/

/-- JSON whitespace. -/
def isWsJson (c : Char) : Bool :=
  c == ' ' || c == '\t' || c == '\n' || c == '\r'

/-- Skip leading JSON whitespace. -/
def skipWs : List Char → List Char
  | [] => []
  | c :: cs => if isWsJson c then skipWs cs else c :: cs

/-- Value of one hex digit. -/
def hexVal (c : Char) : Option Nat :=
  if '0' ≤ c ∧ c ≤ '9' then some (c.toNat - 48)
  else if 'a' ≤ c ∧ c ≤ 'f' then some (c.toNat - 87)
  else if 'A' ≤ c ∧ c ≤ 'F' then some (c.toNat - 55)
  else none

/-- Parse the body of a string literal after its opening quote, returning
the decoded characters and the input after the closing quote. Raw control
characters are rejected as in strict-mode `json.loads`. -/
def parseStringBody : List Char → Option (List Char × List Char)
  | [] => none
  | c :: cs =>
    if c == '"' then some ([], cs)
    else if c == '\\' then
      match cs with
      | [] => none
      | e :: cs2 =>
        if e == '"' then (parseStringBody cs2).map (fun p => ('"' :: p.1, p.2))
        else if e == '\\' then (parseStringBody cs2).map (fun p => ('\\' :: p.1, p.2))
        else if e == '/' then (parseStringBody cs2).map (fun p => ('/' :: p.1, p.2))
        else if e == 'b' then (parseStringBody cs2).map (fun p => ('\x08' :: p.1, p.2))
        else if e == 'f' then (parseStringBody cs2).map (fun p => ('\x0c' :: p.1, p.2))
        else if e == 'n' then (parseStringBody cs2).map (fun p => ('\n' :: p.1, p.2))
        else if e == 'r' then (parseStringBody cs2).map (fun p => ('\r' :: p.1, p.2))
        else if e == 't' then (parseStringBody cs2).map (fun p => ('\t' :: p.1, p.2))
        else if e == 'u' then
          match cs2 with
          | h1 :: h2 :: h3 :: h4 :: cs3 =>
            match hexVal h1, hexVal h2, hexVal h3, hexVal h4 with
            | some a, some b, some c3, some d =>
              (parseStringBody cs3).map
                (fun p => (Char.ofNat (((a * 16 + b) * 16 + c3) * 16 + d) :: p.1, p.2))
            | _, _, _, _ => none
          | _ => none
        else none
    else if c.toNat < 32 then none
    else (parseStringBody cs).map (fun p => (c :: p.1, p.2))
termination_by l => l.length
decreasing_by all_goals (simp_all; try omega)

/-- Numeric value of a decimal digit character. -/
def digitVal (c : Char) : Nat := c.toNat - 48

/-- Whether the input starts with a decimal digit. -/
def headIsDigit : List Char → Bool
  | [] => false
  | c :: _ => c.isDigit

/-- Consume a run of decimal digits, folding them onto the accumulator. -/
def parseDigits : List Char → Nat → Nat × List Char
  | [], acc => (acc, [])
  | c :: cs, acc =>
    if c.isDigit then parseDigits cs (acc * 10 + digitVal c) else (acc, c :: cs)

/-- Parse one value: a string literal or a non-negative integer. -/
def parseVal : List Char → Option (FVal × List Char)
  | [] => none
  | c :: cs =>
    if c == '"' then (parseStringBody cs).map (fun p => (FVal.str ⟨p.1⟩, p.2))
    else if c.isDigit then
      let p := parseDigits (c :: cs) 0
      some (FVal.int p.1, p.2)
    else none

/-- Parse one `"key": value` entry. -/
def parseEntry (l : List Char) : Option ((String × FVal) × List Char) :=
  match l with
  | [] => none
  | c :: cs =>
    if c == '"' then
      match parseStringBody cs with
      | none => none
      | some (k, rest) =>
        match skipWs rest with
        | [] => none
        | c2 :: rest2 =>
          if c2 == ':' then
            match parseVal (skipWs rest2) with
            | none => none
            | some (v, rest3) => some ((⟨k⟩, v), rest3)
          else none
    else none

/-- Parse the entries of a non-empty object, positioned at the first key;
fuel bounds the number of entries. -/
def parseEntries : Nat → List Char → Option (Rec × List Char)
  | 0, _ => none
  | fuel + 1, l =>
    match parseEntry l with
    | none => none
    | some (e, rest) =>
      match skipWs rest with
      | [] => none
      | c :: rest2 =>
        if c == ',' then (parseEntries fuel (skipWs rest2)).map (fun p => (e :: p.1, p.2))
        else if c == '\x7d' then some ([e], rest2)
        else none

/-- Parse one object. -/
def parseRecord (fuel : Nat) (l : List Char) : Option (Rec × List Char) :=
  match l with
  | [] => none
  | c :: cs =>
    if c == '\x7b' then
      match skipWs cs with
      | [] => none
      | c2 :: cs2 =>
        if c2 == '\x7d' then some ([], cs2) else parseEntries fuel (c2 :: cs2)
    else none

/-- Parse the items of a non-empty array, positioned at the first object;
fuel bounds the number of items. -/
def parseItems : Nat → List Char → Option (List Rec × List Char)
  | 0, _ => none
  | fuel + 1, l =>
    match parseRecord fuel l with
    | none => none
    | some (r, rest) =>
      match skipWs rest with
      | [] => none
      | c :: rest2 =>
        if c == ',' then (parseItems fuel (skipWs rest2)).map (fun p => (r :: p.1, p.2))
        else if c == ']' then some ([r], rest2)
        else none

/-- `json.loads` on a serialized record array: parse the array and
require only trailing whitespace after it. -/
def loadsChars (l : List Char) : Option (List Rec) :=
  match skipWs l with
  | [] => none
  | c :: cs =>
    if c == '[' then
      match skipWs cs with
      | [] => none
      | c2 :: cs2 =>
        if c2 == ']' then (if (skipWs cs2).isEmpty then some [] else none)
        else
          match parseItems (l.length + 1) (c2 :: cs2) with
          | some (rs, rest) => if (skipWs rest).isEmpty then some rs else none
          | none => none
    else none

/-- `json.loads` of a string. -/
def loads (s : String) : Option (List Rec) := loadsChars s.data

/-- A crude size of a record list: number of records plus number of
entries; the serialized text is always at least this long, which
justifies the reader's fuel. -/
def recsSize (rs : List Rec) : Nat :=
  rs.length + (rs.map List.length).sum

/-! ## CSV export (`save_to_csv`) and console summary (`print_listings`) -/

/-- Python `str(value)` for a field value. -/
def fvalText : FVal → String
  | .int n => ⟨natToDec n⟩
  | .str s => s

/-- One CSV cell: the record's value for a column, `csv.DictWriter`'s
empty restval when the key is absent. -/
def csvCell (v : Option FVal) : String :=
  match v with
  | some v => fvalText v
  | none => ""

/-- One CSV data row for the given column headers. -/
def csvRowOf (fieldnames : List String) (r : Rec) : List String :=
  fieldnames.map (fun k => csvCell (recLookup r k))

/-- `save_to_csv`: an empty record list writes no file at all (`return`
before opening the file); otherwise the header row is the first record's
keys in insertion order followed by one data row per record. -/
def saveToCsv (listings : List Rec) : Option (List (List String)) :=
  match listings with
  | [] => none
  | r :: _ =>
    let fieldnames := r.map Prod.fst
    some (fieldnames :: listings.map (csvRowOf fieldnames))

/-- Python `s[:n]`. -/
def strTake (s : String) (n : Nat) : String := ⟨s.data.take n⟩

/-- The text printed for `listing[k]` inside an f-string. -/
def lookText (r : Rec) (k : String) : String :=
  csvCell (recLookup r k)

/-- The 80-dash separator line. -/
def sepLine : String := ⟨List.replicate 80 '-'⟩

/-- The 80-equals header line. -/
def eqLine : String := ⟨List.replicate 80 '='⟩

/-- Console lines for one listing: the description is truncated to 100
characters plus an ellipsis when longer than 100, for display only. -/
def printOne (r : Rec) : List String :=
  ["Listing #" ++ lookText r "index",
   "  Title: " ++ lookText r "title",
   "  Price: " ++ lookText r "price",
   "  Location: " ++ lookText r "location"]
  ++ (if lookText r "revenue" != "" then ["  Revenue: " ++ lookText r "revenue"] else [])
  ++ (if lookText r "cash_flow" != "" then ["  Cash Flow: " ++ lookText r "cash_flow"] else [])
  ++ (if lookText r "link" != "" then ["  Link: " ++ lookText r "link"] else [])
  ++ (if lookText r "description" != "" then
        ["  Description: " ++
          (if 100 < (lookText r "description").length then
            strTake (lookText r "description") 100 ++ "..."
          else lookText r "description")]
      else [])
  ++ [sepLine]

/-- `print_listings`: the full sequence of console lines. -/
def printListings (listings : List Rec) : List String :=
  if listings.isEmpty then ["", "No listings found."]
  else
    ["", eqLine, "Found " ++ String.mk (natToDec listings.length) ++ " listings:", eqLine, ""]
      ++ listings.flatMap printOne

/-! ## Spec-side definitions used to compare claims with the code -/

/-- Allowed non-initial characters of a URI scheme. -/
def isSchemeRest (c : Char) : Bool :=
  c.isAlpha || c.isDigit || c == '+' || c == '-' || c == '.'

/-- Scan for the `':'` that closes a URI scheme. -/
def schemeTail : List Char → Bool
  | [] => false
  | c :: cs => if c == ':' then true else isSchemeRest c && schemeTail cs

/-- Modelled from the spec (claim C5's words): an href "starts with a
scheme" when it begins with a letter followed by scheme characters up to
a colon (RFC 3986 scheme syntax). The source instead tests
`href.startswith('http')`. -/
def startsWithScheme (s : String) : Bool :=
  match s.data with
  | [] => false
  | c :: cs => c.isAlpha && schemeTail cs

/-- The `index` value carried by a record (0 when absent or non-integer). -/
def recIndexOf (r : Rec) : Nat :=
  match recLookup r "index" with
  | some (.int i) => i
  | _ => 0

/-! ## Concrete pages and nodes used to instantiate the theorems -/

/-- A well-formed listing card: heading with a relative link, a
description paragraph mentioning sales. -/
def c1Card : HNode :=
  .elem "div" ["listing-card"] []
    (HForest.ofList
      [.elem "h2" [] []
        (HForest.ofList
          [.elem "a" [] [("href", "/listing/123")]
            (HForest.ofList [.text "Acme Bakery — $250,000"])]),
       .elem "p" [] [] (HForest.ofList [.text "Sales: $500,000 annually"])])

/-- A page whose strategy-1 selector `div.listing-card` matches. -/
def c1Page : Page := [c1Card]

/-- A bare div: every field locator misses. -/
def c2Node : HNode := .elem "div" [] [] .nil

/-- Three located nodes for exercising the extraction loop. -/
def c3Nodes : List HNode :=
  [.elem "div" [] [] .nil, .elem "div" [] [] .nil, .elem "div" [] [] .nil]

/-- A per-node extractor that raises on the second listing and otherwise
behaves like `_extract_listing_data`. -/
def failAtTwo (n : HNode) (i : Nat) : Option Rec :=
  if i == 2 then none else some (extractListingData n i)

/-- A successfully fetched page on which no cascade strategy matches,
carrying a title element. -/
def c4Page : Page :=
  [.elem "html" [] []
    (HForest.ofList
      [.elem "title" [] [] (HForest.ofList [.text " Hello  Page "]),
       .elem "span" [] [] .nil])]

/-- The hyperlink with a non-http scheme href. -/
def c5MailtoLink : HNode :=
  .elem "a" [] [("href", "mailto:a@b")] (HForest.ofList [.text "Contact"])

/-- A listing node whose title heading contains a `mailto:` hyperlink. -/
def c5MailtoNode : HNode :=
  .elem "div" [] []
    (HForest.ofList [.elem "h2" [] [] (HForest.ofList [c5MailtoLink])])

/-- The hyperlink with a relative href. -/
def c5RelLink : HNode :=
  .elem "a" [] [("href", "/listing/123")] (HForest.ofList [.text "Acme"])

/-- The heading containing the relative hyperlink. -/
def c5RelTitle : HNode := .elem "h2" [] [] (HForest.ofList [c5RelLink])

/-- A listing node whose title heading contains a relative hyperlink. -/
def c5RelNode : HNode := .elem "div" [] [] (HForest.ofList [c5RelTitle])

/-- A non-div node with a fuzzy "listing" class. -/
def c7Span : HNode := .elem "span" ["listing"] [] .nil

/-- A page whose only fuzzy-class node is a span: strategies 1–3 miss
and the div-restricted strategy 4 misses it too. -/
def c7Page : Page := [c7Span]

/-- A page where only strategy 4 (fuzzy div class) matches. -/
def c7DivPage : Page := [.elem "div" ["listings-grid"] [] .nil]

/-- A 101-character description. -/
def c9Desc : String := ⟨List.replicate 101 'a'⟩

/-- A record with an over-long description. -/
def c9Rec : Rec :=
  [("index", .int 1), ("title", .str "T"), ("price", .str ""),
   ("location", .str ""), ("description", .str c9Desc), ("link", .str ""),
   ("revenue", .str ""), ("cash_flow", .str "")]

/-! # Theorems -/

/-! ## Shape of extracted records -/

theorem extract_keys (n : HNode) (i : Nat) :
    (extractListingData n i).map Prod.fst = recordKeys := rfl

theorem extract_isEmpty_false (n : HNode) (i : Nat) :
    (extractListingData n i).isEmpty = false := rfl

theorem recLookup_index (n : HNode) (i : Nat) :
    recLookup (extractListingData n i) "index" = some (.int i) := rfl

theorem recLookup_title (n : HNode) (i : Nat) :
    recLookup (extractListingData n i) "title" = some (.str (resolveTitleLink n).1) := rfl

theorem recLookup_price (n : HNode) (i : Nat) :
    recLookup (extractListingData n i) "price" =
      some (.str (resolveSel n priceSelectors)) := rfl

theorem recLookup_location (n : HNode) (i : Nat) :
    recLookup (extractListingData n i) "location" =
      some (.str (resolveSel n locationSelectors)) := rfl

theorem recLookup_description (n : HNode) (i : Nat) :
    recLookup (extractListingData n i) "description" =
      some (.str (resolveSel n descSelectors)) := rfl

theorem recLookup_link (n : HNode) (i : Nat) :
    recLookup (extractListingData n i) "link" = some (.str (resolveTitleLink n).2) := rfl

theorem recLookup_revenue (n : HNode) (i : Nat) :
    recLookup (extractListingData n i) "revenue" = some (.str (resolveRevenue n)) := rfl

theorem recLookup_cash_flow (n : HNode) (i : Nat) :
    recLookup (extractListingData n i) "cash_flow" = some (.str (resolveCashFlow n)) := rfl

theorem resolveTitleLink_of_none (n : HNode) (h : firstMatch n titleSelectors = none) :
    resolveTitleLink n = ("", "") := by
  unfold resolveTitleLink
  rw [h]

theorem resolveSel_of_none (n : HNode) (sels : List Sel) (h : firstMatch n sels = none) :
    resolveSel n sels = "" := by
  unfold resolveSel
  rw [h]

theorem resolveRevenue_of_none (n : HNode) (h : findString n revenuePred = none) :
    resolveRevenue n = "" := by
  unfold resolveRevenue
  rw [h]
  simp

theorem resolveCashFlow_of_none (n : HNode) (h : findString n cashFlowPred = none) :
    resolveCashFlow n = "" := by
  unfold resolveCashFlow
  rw [h]
  simp

/-- C2: every extracted record carries exactly the fixed key list
index, title, price, location, description, link, revenue, cash_flow in
insertion order, each key present; a field whose locators all miss is
present with the empty string, never a missing key. -/
theorem record_fixed_keyset (n : HNode) (i : Nat) :
    (extractListingData n i).map Prod.fst = recordKeys ∧
    (∀ k, k ∈ recordKeys → (recLookup (extractListingData n i) k).isSome = true) ∧
    (firstMatch n titleSelectors = none →
      recLookup (extractListingData n i) "title" = some (.str "") ∧
      recLookup (extractListingData n i) "link" = some (.str "")) ∧
    (firstMatch n priceSelectors = none →
      recLookup (extractListingData n i) "price" = some (.str "")) ∧
    (firstMatch n locationSelectors = none →
      recLookup (extractListingData n i) "location" = some (.str "")) ∧
    (firstMatch n descSelectors = none →
      recLookup (extractListingData n i) "description" = some (.str "")) ∧
    (findString n revenuePred = none →
      recLookup (extractListingData n i) "revenue" = some (.str "")) ∧
    (findString n cashFlowPred = none →
      recLookup (extractListingData n i) "cash_flow" = some (.str "")) := by
  refine ⟨rfl, ?_, ?_, ?_, ?_, ?_, ?_, ?_⟩
  · intro k hk
    simp only [recordKeys, List.mem_cons, List.not_mem_nil, or_false] at hk
    rcases hk with h | h | h | h | h | h | h | h <;> subst h <;> rfl
  · intro h
    rw [recLookup_title, recLookup_link, resolveTitleLink_of_none n h]
    exact ⟨rfl, rfl⟩
  · intro h
    rw [recLookup_price, resolveSel_of_none n _ h]
  · intro h
    rw [recLookup_location, resolveSel_of_none n _ h]
  · intro h
    rw [recLookup_description, resolveSel_of_none n _ h]
  · intro h
    rw [recLookup_revenue, resolveRevenue_of_none n h]
  · intro h
    rw [recLookup_cash_flow, resolveCashFlow_of_none n h]

/-- C2 witness: at a bare div every locator misses, and the record still
carries every key with the empty string. -/
theorem record_fixed_keyset_witness :
    (extractListingData c2Node 1).map Prod.fst = recordKeys ∧
    recLookup (extractListingData c2Node 1) "title" = some (.str "") ∧
    recLookup (extractListingData c2Node 1) "price" = some (.str "") ∧
    recLookup (extractListingData c2Node 1) "revenue" = some (.str "") := by
  have h := record_fixed_keyset c2Node 1
  exact ⟨h.1, (h.2.2.1 rfl).1, h.2.2.2.1 rfl, h.2.2.2.2.2.2.1 rfl⟩

/-- C6: revenue and cash_flow are resolved by a two-step substring
search: only when the node's full lower-cased text contains "revenue" or
"sales" (resp. "cash flow") are descendant text nodes scanned, and then
the first text node whose lower-cased content contains the marker is
stored whole and trimmed, verbatim; otherwise the field stays empty.
Any found text node is a descendant text node containing its marker. -/
theorem revenue_cashflow_two_step (n : HNode) (i : Nat) :
    recLookup (extractListingData n i) "revenue" =
      some (.str
        (if strContains (strLower (getTextRaw n)) "revenue"
            || strContains (strLower (getTextRaw n)) "sales" then
          match findString n revenuePred with
          | some t => strTrim t
          | none => ""
        else "")) ∧
    recLookup (extractListingData n i) "cash_flow" =
      some (.str
        (if strContains (strLower (getTextRaw n)) "cash flow" then
          match findString n cashFlowPred with
          | some t => strTrim t
          | none => ""
        else "")) ∧
    (∀ t, findString n revenuePred = some t →
      t ∈ stringsN n ∧
        (strContains (strLower t) "revenue" || strContains (strLower t) "sales") = true) ∧
    (∀ t, findString n cashFlowPred = some t →
      t ∈ stringsN n ∧ strContains (strLower t) "cash flow" = true) := by
  refine ⟨rfl, rfl, ?_, ?_⟩
  · intro t ht
    have hmem := List.mem_of_find?_eq_some ht
    have hp := List.find?_some ht
    simp only [revenuePred, Bool.and_eq_true] at hp
    exact ⟨hmem, hp.2⟩
  · intro t ht
    have hmem := List.mem_of_find?_eq_some ht
    have hp := List.find?_some ht
    simp only [cashFlowPred, Bool.and_eq_true] at hp
    exact ⟨hmem, hp.2⟩

/-- C6 witness: on the Acme card the revenue pre-check fires and the
"Sales:" text node is stored whole and trimmed. -/
theorem revenue_cashflow_two_step_witness :
    ("Sales: $500,000 annually" ∈ stringsN c1Card ∧
      (strContains (strLower "Sales: $500,000 annually") "revenue"
        || strContains (strLower "Sales: $500,000 annually") "sales") = true) ∧
    recLookup (extractListingData c1Card 1) "revenue" =
      some (.str "Sales: $500,000 annually") := by
  have h := revenue_cashflow_two_step c1Card 1
  refine ⟨h.2.2.1 "Sales: $500,000 annually" rfl, ?_⟩
  rw [h.1]
  rfl

/-- C10: exporting an empty record list to CSV writes no file at all;
for a non-empty list the header row is exactly the first record's keys
in insertion order — for extracted records the fixed eight keys — with
one data row per record. -/
theorem csv_export_shape :
    saveToCsv [] = none ∧
    (∀ (r : Rec) (rs : List Rec),
      saveToCsv (r :: rs) =
        some ((r.map Prod.fst) :: (r :: rs).map (csvRowOf (r.map Prod.fst))) ∧
      ((r :: rs).map (csvRowOf (r.map Prod.fst))).length = (r :: rs).length) ∧
    (∀ (n : HNode) (i : Nat), (extractListingData n i).map Prod.fst = recordKeys) := by
  refine ⟨rfl, ?_, fun n i => rfl⟩
  intro r rs
  exact ⟨rfl, by simp⟩

/-- C5 counterexample: the href `mailto:a@b` starts with a scheme, yet
the stored link is the base origin concatenated with it, not the href
unchanged — the code only preserves hrefs starting with "http". -/
theorem link_scheme_counterexample :
    startsWithScheme "mailto:a@b" = true ∧
    recLookup (extractListingData c5MailtoNode 1) "link" =
      some (.str "https://www.bizbuysell.commailto:a@b") ∧
    ("https://www.bizbuysell.commailto:a@b" : String) ≠ "mailto:a@b" := by
  refine ⟨rfl, rfl, by decide⟩

/-- C5 amended: when the title element is a hyperlink or contains one
and its href is non-empty, the stored link is the href unchanged when it
starts with the literal "http", and the base origin concatenated with
the href otherwise. -/
theorem link_resolution_amended (n : HNode) (i : Nat) (e le : HNode) (href : String)
    (he : firstMatch n titleSelectors = some e)
    (hle : (if e.tagName == "a" then some e else findDescTag e "a") = some le)
    (hhref : (attrGet le "href").getD "" = href)
    (hne : href ≠ "") :
    recLookup (extractListingData n i) "link" =
      some (.str (if strStartsWith href "http" then href else baseUrl ++ href)) := by
  rw [recLookup_link]
  unfold resolveTitleLink
  rw [he]
  simp only [hle, hhref]
  rw [if_neg (by simpa using hne)]
  rfl

/-- C5 witness: the relative href `/listing/123` resolves to the base
origin concatenated with it. -/
theorem link_resolution_amended_witness :
    recLookup (extractListingData c5RelNode 1) "link" =
      some (.str "https://www.bizbuysell.com/listing/123") := by
  have h := link_resolution_amended c5RelNode 1 c5RelTitle c5RelLink "/listing/123"
    rfl rfl rfl (by decide)
  simpa using h

/-- C7 counterexample: with a lone `span class="listing"` no cascade
strategy matches — step 4 is div-restricted — although a node of another
tag with a fuzzy "listing" class exists, refuting "regardless of tag". -/
theorem cascade_step4_counterexample :
    strategy1 c7Page = [] ∧ strategy2 c7Page = [] ∧ strategy3 c7Page = [] ∧
    locateBlocks c7Page = [] ∧
    fuzzyClassAllTags c7Page = [c7Span] := ⟨rfl, rfl, rfl, rfl, rfl⟩

/-- C7 amended: when strategies 1–3 all yield nothing, the cascade
returns strategy 4: all DIV nodes (not nodes of any tag) whose class
attribute contains "listing" or "result" case-insensitively. -/
theorem cascade_step4_div_only (page : Page)
    (h1 : (strategy1 page).isEmpty = true) (h2 : (strategy2 page).isEmpty = true)
    (h3 : (strategy3 page).isEmpty = true) :
    locateBlocks page = strategy4 page ∧
    strategy4 page = (pageElems page).filter
      (fun n => n.tagName == "div" && classFuzzyMatch n.classList) := by
  constructor
  · simp [locateBlocks, h1, h2, h3]
  · rfl

/-- C7 witness: a page whose only match is a div with class
"listings-grid" reaches step 4 and collects it. -/
theorem cascade_step4_div_only_witness :
    locateBlocks c7DivPage = strategy4 c7DivPage ∧
    strategy4 c7DivPage = (pageElems c7DivPage).filter
      (fun n => n.tagName == "div" && classFuzzyMatch n.classList) :=
  cascade_step4_div_only c7DivPage rfl rfl rfl

/-- The total extractor keeps every located node: one record per node. -/
theorem extractLoop_total_length (ns : List HNode) (i : Nat) :
    (extractLoop extractTotal i ns).length = ns.length := by
  induction ns generalizing i with
  | nil => rfl
  | cons n ns ih =>
    simp [extractLoop, extractTotal, extract_isEmpty_false, ih]

/-- C1: block location is an ordered cascade — the first strategy with a
non-empty result wins and no later strategy contributes — and whenever
strategy 1 (the fixed tag/class pair list) matches, the extractor
produces exactly one record per node matched by strategy 1, with no
mixing of nodes from other strategies. -/
theorem cascade_first_strategy_wins (page : Page) (h : (strategy1 page).isEmpty = false) :
    locateBlocks page = strategy1 page ∧
    extractRecords page = extractLoop extractTotal 1 (strategy1 page) ∧
    (extractRecords page).length = (strategy1 page).length ∧
    ∀ p : Page,
      locateBlocks p = cascadeFirst [strategy1 p, strategy2 p, strategy3 p, strategy4 p] := by
  have hb : locateBlocks page = strategy1 page := by simp [locateBlocks, h]
  refine ⟨hb, ?_, ?_, ?_⟩
  · rw [extractRecords, hb]
  · rw [extractRecords, hb, extractLoop_total_length]
  · intro p
    by_cases e1 : (strategy1 p).isEmpty <;> by_cases e2 : (strategy2 p).isEmpty <;>
      by_cases e3 : (strategy3 p).isEmpty <;> by_cases e4 : (strategy4 p).isEmpty <;>
      simp_all [locateBlocks, cascadeFirst]

/-- C1 witness: on the Acme page strategy 1 matches one node and exactly
one record is produced from it. -/
theorem cascade_first_strategy_wins_witness :
    locateBlocks c1Page = strategy1 c1Page ∧
    extractRecords c1Page = extractLoop extractTotal 1 (strategy1 c1Page) ∧
    (extractRecords c1Page).length = (strategy1 c1Page).length := by
  have h := cascade_first_strategy_wins c1Page rfl
  exact ⟨h.1, h.2.1, h.2.2.1⟩

/-- C4: the raw-page fallback (full markup plus the trimmed page title
when a title element exists) is produced exactly when a successfully
fetched page yields no records; a fetch/parse failure returns an empty
record list with no fallback; a non-empty record list excludes the
fallback. -/
theorem raw_fallback_iff_empty (fetch : Option (String × Page)) :
    scrapeListings none = ([], none) ∧
    (∀ src page, extractRecords page = [] →
      scrapeListings (some (src, page)) =
        ([], some ⟨src, (pageTitleElem page).map getTextStrip⟩)) ∧
    (∀ src page, extractRecords page ≠ [] →
      scrapeListings (some (src, page)) = (extractRecords page, none)) ∧
    ((scrapeListings fetch).2.isSome = true → (scrapeListings fetch).1 = []) := by
  refine ⟨rfl, ?_, ?_, ?_⟩
  · intro src page hrec
    simp [scrapeListings, hrec]
  · intro src page hrec
    simp [scrapeListings, hrec]
  · intro hsome
    match fetch with
    | none => rfl
    | some (src, page) =>
      by_cases hrec : (extractRecords page).isEmpty
      · simp_all [scrapeListings]
      · simp_all [scrapeListings]

/-- C4 witness: a fetched page with no matching blocks returns no
records and the fallback carrying the markup and the trimmed title. -/
theorem raw_fallback_iff_empty_witness :
    scrapeListings (some ("RAW MARKUP", c4Page)) =
      ([], some ⟨"RAW MARKUP", (pageTitleElem c4Page).map getTextStrip⟩) ∧
    (pageTitleElem c4Page).map getTextStrip = some "Hello  Page" :=
  ⟨(raw_fallback_iff_empty none).2.1 "RAW MARKUP" c4Page rfl, rfl⟩

/-! ## Per-listing failure isolation (C3) -/

theorem extractLoop_cons (f : HNode → Nat → Option Rec) (i : Nat) (n : HNode)
    (ns : List HNode) :
    extractLoop f i (n :: ns) =
      (match f n i with
       | some d => if d.isEmpty then [] else [d]
       | none => []) ++ extractLoop f (i + 1) ns := rfl

/-- The indices contributed by one loop step: the current index exactly
when extraction succeeded with a truthy record. -/
theorem mem_extractLoop_head (f : HNode → Nat → Option Rec) (n : HNode) (i k : Nat)
    (hidx : ∀ d, f n i = some d → recLookup d "index" = some (.int i)) :
    (k ∈ ((match f n i with
           | some d => if d.isEmpty then [] else [d]
           | none => []) : List Rec).map recIndexOf) ↔
      (k = i ∧ ∃ d, f n i = some d ∧ d.isEmpty = false) := by
  cases hfn : f n i with
  | none => simp
  | some d =>
    cases hde : d.isEmpty with
    | true => simp_all
    | false =>
      have hri : recIndexOf d = i := by
        unfold recIndexOf
        rw [hidx d hfn]
      simp [hde, hri]
      intro _
      simpa using hde

/-- Membership of an index in the loop output: `i + j` appears exactly
when the `j`-th remaining node extracts successfully. -/
theorem mem_extractLoop_idx (f : HNode → Nat → Option Rec)
    (hidx : ∀ n i d, f n i = some d → recLookup d "index" = some (.int i))
    (ns : List HNode) :
    ∀ (i k : Nat),
      k ∈ (extractLoop f i ns).map recIndexOf ↔
        ∃ j n, ns[j]? = some n ∧ k = i + j ∧
          ∃ d, f n k = some d ∧ d.isEmpty = false := by
  induction ns with
  | nil => intro i k; simp [extractLoop]
  | cons n ns ih =>
    intro i k
    rw [extractLoop_cons, List.map_append, List.mem_append,
      mem_extractLoop_head f n i k (fun d => hidx n i d), ih (i + 1) k]
    constructor
    · rintro (⟨rfl, d, hd, hde⟩ | ⟨j, m, hm, rfl, d, hd, hde⟩)
      · exact ⟨0, n, by simp, by omega, d, hd, hde⟩
      · exact ⟨j + 1, m, by simpa using hm, by omega, d, hd, hde⟩
    · rintro ⟨j, m, hm, rfl, d, hd, hde⟩
      cases j with
      | zero =>
        left
        simp only [List.getElem?_cons_zero, Option.some.injEq] at hm
        subst hm
        exact ⟨by omega, d, by simpa using hd, hde⟩
      | succ j =>
        right
        exact ⟨j, m, by simpa using hm, by omega, d, by simpa using hd, hde⟩

/-- The surviving indices form a sublist of the full index range. -/
theorem extractLoop_idx_sublist (f : HNode → Nat → Option Rec)
    (hidx : ∀ n i d, f n i = some d → recLookup d "index" = some (.int i))
    (ns : List HNode) :
    ∀ i : Nat,
      List.Sublist ((extractLoop f i ns).map recIndexOf) (List.range' i ns.length) := by
  induction ns with
  | nil => intro i; simp [extractLoop]
  | cons n ns ih =>
    intro i
    rw [extractLoop_cons, List.map_append, List.length_cons, List.range'_succ]
    cases hfn : f n i with
    | none => exact List.Sublist.cons i (by simpa using ih (i + 1))
    | some d =>
      cases hde : d.isEmpty with
      | true => simpa [hde] using List.Sublist.cons i (ih (i + 1))
      | false =>
        have hri : recIndexOf d = i := by
          unfold recIndexOf
          rw [hidx n i d hfn]
        simpa [hde, hri] using List.Sublist.cons₂ i (ih (i + 1))

/-- C3: when resolving one listing's fields raises, that listing alone
is skipped and the loop continues; the surviving records' index values
form a strictly increasing, duplicate-free sublist of 1..N, and index
`1 + j` survives exactly when the `j`-th located node (0-based) extracts
successfully — gaps sit exactly at skipped listings. -/
theorem per_listing_skip (f : HNode → Nat → Option Rec) (nodes : List HNode)
    (hidx : ∀ n i d, f n i = some d → recLookup d "index" = some (.int i)) :
    List.Sublist ((extractLoop f 1 nodes).map recIndexOf)
      (List.range' 1 nodes.length) ∧
    List.Pairwise (· < ·) ((extractLoop f 1 nodes).map recIndexOf) ∧
    (∀ k, k ∈ (extractLoop f 1 nodes).map recIndexOf ↔
      ∃ j n, nodes[j]? = some n ∧ k = 1 + j ∧
        ∃ d, f n k = some d ∧ d.isEmpty = false) := by
  refine ⟨extractLoop_idx_sublist f hidx nodes 1, ?_, fun k => mem_extractLoop_idx f hidx nodes 1 k⟩
  exact List.Pairwise.sublist (extractLoop_idx_sublist f hidx nodes 1)
    (List.pairwise_lt_range' 1 nodes.length)

/-- C3 witness: with the second of three listings raising, the output
indices are exactly [1, 3] — strictly increasing, inside 1..3, with the
gap at the failed listing. -/
theorem per_listing_skip_witness :
    (extractLoop failAtTwo 1 c3Nodes).map recIndexOf = [1, 3] ∧
    List.Sublist ((extractLoop failAtTwo 1 c3Nodes).map recIndexOf)
      (List.range' 1 c3Nodes.length) ∧
    List.Pairwise (· < ·) ((extractLoop failAtTwo 1 c3Nodes).map recIndexOf) := by
  have hidx : ∀ n i d, failAtTwo n i = some d → recLookup d "index" = some (.int i) := by
    intro n i d hd
    unfold failAtTwo at hd
    by_cases hi : (i == 2) = true
    · rw [if_pos hi] at hd
      exact absurd hd (by simp)
    · rw [if_neg hi] at hd
      cases hd
      exact recLookup_index n i
  have h := per_listing_skip failAtTwo c3Nodes hidx
  exact ⟨rfl, h.1, h.2.1⟩

/-! ## JSON round trip (C8): string escapes -/

theorem psb_quote (cs : List Char) : parseStringBody ('"' :: cs) = some ([], cs) := by
  rw [parseStringBody.eq_def]; rfl

theorem psb_esc_quote (cs : List Char) :
    parseStringBody ('\\' :: '"' :: cs) =
      (parseStringBody cs).map (fun p => ('"' :: p.1, p.2)) := by
  rw [parseStringBody.eq_def]; rfl

theorem psb_esc_bs (cs : List Char) :
    parseStringBody ('\\' :: '\\' :: cs) =
      (parseStringBody cs).map (fun p => ('\\' :: p.1, p.2)) := by
  rw [parseStringBody.eq_def]; rfl

theorem psb_esc_b (cs : List Char) :
    parseStringBody ('\\' :: 'b' :: cs) =
      (parseStringBody cs).map (fun p => ('\x08' :: p.1, p.2)) := by
  rw [parseStringBody.eq_def]; rfl

theorem psb_esc_f (cs : List Char) :
    parseStringBody ('\\' :: 'f' :: cs) =
      (parseStringBody cs).map (fun p => ('\x0c' :: p.1, p.2)) := by
  rw [parseStringBody.eq_def]; rfl

theorem psb_esc_n (cs : List Char) :
    parseStringBody ('\\' :: 'n' :: cs) =
      (parseStringBody cs).map (fun p => ('\n' :: p.1, p.2)) := by
  rw [parseStringBody.eq_def]; rfl

theorem psb_esc_r (cs : List Char) :
    parseStringBody ('\\' :: 'r' :: cs) =
      (parseStringBody cs).map (fun p => ('\r' :: p.1, p.2)) := by
  rw [parseStringBody.eq_def]; rfl

theorem psb_esc_t (cs : List Char) :
    parseStringBody ('\\' :: 't' :: cs) =
      (parseStringBody cs).map (fun p => ('\t' :: p.1, p.2)) := by
  rw [parseStringBody.eq_def]; rfl

theorem psb_esc_u (h1 h2 h3 h4 : Char) (cs : List Char) :
    parseStringBody ('\\' :: 'u' :: h1 :: h2 :: h3 :: h4 :: cs) =
      (match hexVal h1, hexVal h2, hexVal h3, hexVal h4 with
       | some a, some b, some c3, some d =>
         (parseStringBody cs).map
           (fun p => (Char.ofNat (((a * 16 + b) * 16 + c3) * 16 + d) :: p.1, p.2))
       | _, _, _, _ => none) := by
  rw [parseStringBody.eq_def]; rfl

theorem psb_plain (c : Char) (cs : List Char) (h1 : ¬ c = '"') (h2 : ¬ c = '\\')
    (h3 : ¬ c.toNat < 32) :
    parseStringBody (c :: cs) = (parseStringBody cs).map (fun p => (c :: p.1, p.2)) := by
  rw [parseStringBody.eq_def]
  simp [h1, h2, h3]

theorem hexVal_hexDigitChar : ∀ n, n < 16 → hexVal (hexDigitChar n) = some n := by decide

/-- Decoding inverts the character escape: what the serializer writes
for a string body, the reader parses back verbatim. -/
theorem parseStringBody_esc (l : List Char) :
    ∀ rest : List Char, parseStringBody (l.flatMap escChar ++ '"' :: rest) = some (l, rest) := by
  induction l with
  | nil =>
    intro rest
    simpa using psb_quote rest
  | cons c cs ih =>
    intro rest
    rw [List.flatMap_cons, List.append_assoc]
    by_cases h1 : c = '"'
    · subst h1
      rw [show escChar '"' = ['\\', '"'] from rfl, List.cons_append, List.cons_append,
        List.nil_append, psb_esc_quote, ih]
      rfl
    · by_cases h2 : c = '\\'
      · subst h2
        rw [show escChar '\\' = ['\\', '\\'] from rfl, List.cons_append, List.cons_append,
          List.nil_append, psb_esc_bs, ih]
        rfl
      · by_cases h3 : c = '\x08'
        · subst h3
          rw [show escChar '\x08' = ['\\', 'b'] from rfl, List.cons_append, List.cons_append,
            List.nil_append, psb_esc_b, ih]
          rfl
        · by_cases h4 : c = '\x0c'
          · subst h4
            rw [show escChar '\x0c' = ['\\', 'f'] from rfl, List.cons_append, List.cons_append,
              List.nil_append, psb_esc_f, ih]
            rfl
          · by_cases h5 : c = '\n'
            · subst h5
              rw [show escChar '\n' = ['\\', 'n'] from rfl, List.cons_append, List.cons_append,
                List.nil_append, psb_esc_n, ih]
              rfl
            · by_cases h6 : c = '\r'
              · subst h6
                rw [show escChar '\r' = ['\\', 'r'] from rfl, List.cons_append, List.cons_append,
                  List.nil_append, psb_esc_r, ih]
                rfl
              · by_cases h7 : c = '\t'
                · subst h7
                  rw [show escChar '\t' = ['\\', 't'] from rfl, List.cons_append,
                    List.cons_append, List.nil_append, psb_esc_t, ih]
                  rfl
                · by_cases h8 : c.toNat < 32
                  · have hesc : escChar c =
                        ['\\', 'u', '0', '0', hexDigitChar (c.toNat / 16),
                         hexDigitChar (c.toNat % 16)] := by
                      simp [escChar, h1, h2, h3, h4, h5, h6, h7, h8]
                    have hhi : c.toNat / 16 < 16 := by omega
                    have hlo : c.toNat % 16 < 16 := by omega
                    rw [hesc]
                    simp only [List.cons_append, List.nil_append]
                    rw [psb_esc_u, show hexVal '0' = some 0 from rfl,
                      hexVal_hexDigitChar _ hhi, hexVal_hexDigitChar _ hlo]
                    have harith : c.toNat / 16 * 16 + c.toNat % 16 = c.toNat := by omega
                    simp [ih, harith]
                  · have hesc : escChar c = [c] := by
                      simp [escChar, h1, h2, h3, h4, h5, h6, h7, h8]
                    rw [hesc, List.cons_append, List.nil_append,
                      psb_plain c _ h1 h2 h8, ih]
                    rfl

/-! ## JSON round trip (C8): decimal numbers -/

theorem digitChar_isDigit : ∀ r, r < 10 → (Char.ofNat (48 + r)).isDigit = true := by decide

theorem digitChar_val : ∀ r, r < 10 → digitVal (Char.ofNat (48 + r)) = r := by decide

theorem natToDecAux_append (n : Nat) :
    ∀ (a b : List Char), natToDecAux n (a ++ b) = natToDecAux n a ++ b := by
  induction n using Nat.strong_induction_on with
  | _ n ih =>
    match n with
    | 0 => intro a b; simp [natToDecAux]
    | m + 1 =>
      intro a b
      rw [show (natToDecAux (m + 1) (a ++ b)) =
          natToDecAux ((m + 1) / 10) (Char.ofNat (48 + (m + 1) % 10) :: (a ++ b)) from by
        simp [natToDecAux]]
      rw [show (natToDecAux (m + 1) a) =
          natToDecAux ((m + 1) / 10) (Char.ofNat (48 + (m + 1) % 10) :: a) from by
        simp [natToDecAux]]
      rw [show (Char.ofNat (48 + (m + 1) % 10) :: (a ++ b)) =
          (Char.ofNat (48 + (m + 1) % 10) :: a) ++ b from rfl]
      exact ih ((m + 1) / 10) (Nat.div_lt_self (Nat.succ_pos m) (by omega)) _ b

theorem parseDigits_cons_digit (c : Char) (cs : List Char) (acc : Nat)
    (h : c.isDigit = true) :
    parseDigits (c :: cs) acc = parseDigits cs (acc * 10 + digitVal c) := by
  simp [parseDigits, h]

theorem parseDigits_stop (l : List Char) (acc : Nat) (h : headIsDigit l = false) :
    parseDigits l acc = (acc, l) := by
  cases l with
  | nil => rfl
  | cons c cs =>
    simp only [headIsDigit] at h
    simp [parseDigits, h]

theorem parseDigits_natToDecAux (n : Nat) :
    ∀ (acc : Nat) (tail rest : List Char),
      parseDigits (natToDecAux n tail ++ rest) acc =
        parseDigits (tail ++ rest) (acc * 10 ^ (natToDecAux n []).length + n) := by
  induction n using Nat.strong_induction_on with
  | _ n ih =>
    match n with
    | 0 => intro acc tail rest; simp [natToDecAux]
    | m + 1 =>
      intro acc tail rest
      have hstep : ∀ t : List Char,
          natToDecAux (m + 1) t =
            natToDecAux ((m + 1) / 10) (Char.ofNat (48 + (m + 1) % 10) :: t) := by
        intro t; simp [natToDecAux]
      have hdiv : (m + 1) / 10 < m + 1 := Nat.div_lt_self (Nat.succ_pos m) (by omega)
      have hmod : (m + 1) % 10 < 10 := Nat.mod_lt _ (by omega)
      rw [hstep tail, ih _ hdiv acc _ rest, List.cons_append,
        parseDigits_cons_digit _ _ _ (digitChar_isDigit _ hmod), digitChar_val _ hmod]
      have hlen : (natToDecAux (m + 1) []).length =
          (natToDecAux ((m + 1) / 10) []).length + 1 := by
        rw [hstep,
          show (Char.ofNat (48 + (m + 1) % 10) :: ([] : List Char)) =
            [] ++ [Char.ofNat (48 + (m + 1) % 10)] from rfl,
          natToDecAux_append]
        simp
      rw [hlen, pow_succ]
      have hq : (m + 1) / 10 * 10 + (m + 1) % 10 = m + 1 := by omega
      have hacc : (acc * 10 ^ (natToDecAux ((m + 1) / 10) []).length + (m + 1) / 10) * 10 +
          (m + 1) % 10 =
          acc * (10 ^ (natToDecAux ((m + 1) / 10) []).length * 10) + (m + 1) := by
        linear_combination hq
      rw [hacc]

theorem natToDec_eq_aux (n : Nat) (h : n ≠ 0) : natToDec n = natToDecAux n [] := by
  simp [natToDec, h]

theorem parseDigits_natToDec (n acc : Nat) (rest : List Char)
    (h : headIsDigit rest = false) :
    parseDigits (natToDec n ++ rest) acc =
      (acc * 10 ^ (natToDec n).length + n, rest) := by
  by_cases h0 : n = 0
  · subst h0
    rw [show natToDec 0 = ['0'] from rfl, List.cons_append,
      parseDigits_cons_digit _ _ _ (by decide), List.nil_append, parseDigits_stop _ _ h]
    simp [digitVal]
  · rw [natToDec_eq_aux n h0, parseDigits_natToDecAux n acc [] rest,
      List.nil_append, parseDigits_stop _ _ h]

theorem natToDec_head_digit (n : Nat) :
    ∃ c cs, natToDec n = c :: cs ∧ c.isDigit = true := by
  by_cases h0 : n = 0
  · subst h0; exact ⟨'0', [], rfl, by decide⟩
  · have key : ∀ m, m ≠ 0 → ∃ c cs, natToDecAux m [] = c :: cs ∧ c.isDigit = true := by
      intro m
      induction m using Nat.strong_induction_on with
      | _ m ih =>
        intro hm
        cases m with
        | zero => exact absurd rfl hm
        | succ k =>
          have hstep : natToDecAux (k + 1) [] =
              natToDecAux ((k + 1) / 10) [Char.ofNat (48 + (k + 1) % 10)] := by
            simp [natToDecAux]
          have hmod : (k + 1) % 10 < 10 := Nat.mod_lt _ (by omega)
          by_cases hq : (k + 1) / 10 = 0
          · refine ⟨Char.ofNat (48 + (k + 1) % 10), [], ?_, digitChar_isDigit _ hmod⟩
            rw [hstep, hq]
            simp [natToDecAux]
          · obtain ⟨c, cs, hc, hd⟩ :=
              ih ((k + 1) / 10) (Nat.div_lt_self (Nat.succ_pos k) (by omega)) hq
            refine ⟨c, cs ++ [Char.ofNat (48 + (k + 1) % 10)], ?_, hd⟩
            rw [hstep,
              show [Char.ofNat (48 + (k + 1) % 10)] =
                ([] : List Char) ++ [Char.ofNat (48 + (k + 1) % 10)] from rfl,
              natToDecAux_append, hc]
            rfl
    obtain ⟨c, cs, hc, hd⟩ := key n h0
    exact ⟨c, cs, by rw [natToDec_eq_aux n h0, hc], hd⟩

theorem isDigit_ne_quote (c : Char) (h : c.isDigit = true) : (c == '"') = false := by
  rw [beq_eq_false_iff_ne]
  intro hc
  subst hc
  exact absurd h (by decide)

theorem isDigit_not_ws (c : Char) (h : c.isDigit = true) : isWsJson c = false := by
  by_contra hw
  rw [Bool.not_eq_false] at hw
  have hcases : c = ' ' ∨ c = '\t' ∨ c = '\n' ∨ c = '\r' := by
    simpa [isWsJson, or_assoc] using hw
  rcases hcases with rfl | rfl | rfl | rfl <;> exact absurd h (by decide)

/-! ## JSON round trip (C8): values, entries, objects, arrays -/

theorem skipWs_not_ws (c : Char) (l : List Char) (h : isWsJson c = false) :
    skipWs (c :: l) = c :: l := by
  simp [skipWs, h]

theorem parseVal_quote (cs : List Char) :
    parseVal ('"' :: cs) = (parseStringBody cs).map (fun p => (FVal.str ⟨p.1⟩, p.2)) := by
  simp [parseVal]

theorem parseVal_digit (c : Char) (cs : List Char) (hd : c.isDigit = true) :
    parseVal (c :: cs) =
      some (.int (parseDigits (c :: cs) 0).1, (parseDigits (c :: cs) 0).2) := by
  simp [parseVal, isDigit_ne_quote c hd, hd]

theorem parseVal_dump (v : FVal) (rest : List Char) (h : headIsDigit rest = false) :
    parseVal (dumpVal v ++ rest) = some (v, rest) := by
  cases v with
  | str s =>
    rw [show dumpVal (.str s) = '"' :: (escString s ++ ['"']) from rfl, List.cons_append,
      parseVal_quote, List.append_assoc,
      show (['"'] : List Char) ++ rest = '"' :: rest from rfl,
      show escString s = s.data.flatMap escChar from rfl,
      parseStringBody_esc]
    rfl
  | int n =>
    obtain ⟨c, cs, hc, hd⟩ := natToDec_head_digit n
    rw [show dumpVal (.int n) = natToDec n from rfl, hc, List.cons_append,
      parseVal_digit c _ hd, ← List.cons_append, ← hc, parseDigits_natToDec n 0 rest h]
    simp

theorem skipWs_dumpVal (v : FVal) (rest : List Char) :
    skipWs (dumpVal v ++ rest) = dumpVal v ++ rest := by
  cases v with
  | str s => rfl
  | int n =>
    obtain ⟨c, cs, hc, hd⟩ := natToDec_head_digit n
    rw [show dumpVal (.int n) = natToDec n from rfl, hc, List.cons_append,
      skipWs_not_ws _ _ (isDigit_not_ws c hd)]

theorem parseEntry_dump (e : String × FVal) (rest : List Char) (h : headIsDigit rest = false) :
    parseEntry (dumpEntry e ++ rest) = some (e, rest) := by
  obtain ⟨k, v⟩ := e
  rw [show dumpEntry (k, v) ++ rest =
      '"' :: (k.data.flatMap escChar ++ '"' :: (':' :: ' ' :: (dumpVal v ++ rest))) from by
    simp [dumpEntry, encodeStr, escString, List.append_assoc]]
  simp only [parseEntry]
  rw [parseStringBody_esc]
  simp only [skipWs_not_ws ':' _ (by decide)]
  rw [show skipWs (' ' :: (dumpVal v ++ rest)) = skipWs (dumpVal v ++ rest) from rfl,
    skipWs_dumpVal, parseVal_dump v rest h]
  rfl

theorem dumpRecBody_head (e : String × FVal) (r' : Rec) :
    ∃ t, dumpRecBody (e :: r') = '"' :: t := by
  cases r' with
  | nil => exact ⟨_, rfl⟩
  | cons a r'' => exact ⟨_, rfl⟩

theorem skipWs_dumpRecBody (e : String × FVal) (r' : Rec) (X : List Char) :
    skipWs (dumpRecBody (e :: r') ++ X) = dumpRecBody (e :: r') ++ X := by
  obtain ⟨t, ht⟩ := dumpRecBody_head e r'
  rw [ht, List.cons_append, skipWs_not_ws _ _ (by decide)]

theorem parseEntries_dump (r : Rec) :
    ∀ (fuel : Nat) (rest : List Char), r ≠ [] → r.length ≤ fuel →
      parseEntries fuel (dumpRecBody r ++ '\n' :: ' ' :: ' ' :: '\x7d' :: rest) =
        some (r, rest) := by
  induction r with
  | nil => intro fuel rest hne; exact absurd rfl hne
  | cons e r' ih =>
    intro fuel rest _ hlen
    cases fuel with
    | zero => simp at hlen
    | succ f =>
      cases r' with
      | nil =>
        rw [show dumpRecBody [e] = dumpEntry e from rfl]
        simp only [parseEntries]
        rw [parseEntry_dump e _ (by rfl)]
        rfl
      | cons e2 r'' =>
        rw [show dumpRecBody (e :: e2 :: r'') ++ '\n' :: ' ' :: ' ' :: '\x7d' :: rest =
            dumpEntry e ++ (',' :: '\n' :: ' ' :: ' ' :: ' ' :: ' ' ::
              (dumpRecBody (e2 :: r'') ++ '\n' :: ' ' :: ' ' :: '\x7d' :: rest)) from by
          simp [dumpRecBody, entrySep, List.append_assoc]]
        simp only [parseEntries]
        rw [parseEntry_dump e _ (by rfl)]
        have ihh := ih f rest (by simp) (by
          simp only [List.length_cons] at hlen ⊢
          omega)
        show (parseEntries f (skipWs ('\n' :: ' ' :: ' ' :: ' ' :: ' ' ::
            (dumpRecBody (e2 :: r'') ++ '\n' :: ' ' :: ' ' :: '\x7d' :: rest)))).map
            (fun p => (e :: p.1, p.2)) = some (e :: e2 :: r'', rest)
        rw [show skipWs ('\n' :: ' ' :: ' ' :: ' ' :: ' ' ::
            (dumpRecBody (e2 :: r'') ++ '\n' :: ' ' :: ' ' :: '\x7d' :: rest)) =
            skipWs (dumpRecBody (e2 :: r'') ++ '\n' :: ' ' :: ' ' :: '\x7d' :: rest) from rfl,
          skipWs_dumpRecBody, ihh]
        rfl

theorem parseRecord_dump (r : Rec) (fuel : Nat) (rest : List Char)
    (hlen : r.length ≤ fuel) :
    parseRecord fuel (dumpRec r ++ rest) = some (r, rest) := by
  cases r with
  | nil => rfl
  | cons e r' =>
    rw [show dumpRec (e :: r') ++ rest =
        '\x7b' :: '\n' :: ' ' :: ' ' :: ' ' :: ' ' ::
          (dumpRecBody (e :: r') ++ '\n' :: ' ' :: ' ' :: '\x7d' :: rest) from by
      simp [dumpRec, List.append_assoc]]
    simp only [parseRecord]
    rw [show skipWs ('\n' :: ' ' :: ' ' :: ' ' :: ' ' ::
        (dumpRecBody (e :: r') ++ '\n' :: ' ' :: ' ' :: '\x7d' :: rest)) =
        skipWs (dumpRecBody (e :: r') ++ '\n' :: ' ' :: ' ' :: '\x7d' :: rest) from rfl,
      skipWs_dumpRecBody]
    obtain ⟨t, ht⟩ := dumpRecBody_head e r'
    rw [ht, List.cons_append]
    show parseEntries fuel ('"' :: (t ++ '\n' :: ' ' :: ' ' :: '\x7d' :: rest)) =
      some (e :: r', rest)
    rw [← List.cons_append, ← ht,
      parseEntries_dump (e :: r') fuel rest (by simp) hlen]

theorem dumpRec_head (r : Rec) : ∃ t, dumpRec r = '\x7b' :: t := by
  cases r with
  | nil => exact ⟨_, rfl⟩
  | cons e r' => exact ⟨_, rfl⟩

theorem dumpsBody_head (r : Rec) (rs' : List Rec) :
    ∃ t, dumpsBody (r :: rs') = '\x7b' :: t := by
  obtain ⟨t, ht⟩ := dumpRec_head r
  cases rs' with
  | nil =>
    refine ⟨t, ?_⟩
    rw [show dumpsBody [r] = dumpRec r from rfl, ht]
  | cons b rs'' =>
    refine ⟨(t ++ itemSep) ++ dumpsBody (b :: rs''), ?_⟩
    rw [show dumpsBody (r :: b :: rs'') = (dumpRec r ++ itemSep) ++ dumpsBody (b :: rs'')
      from rfl, ht]
    simp

theorem skipWs_dumpsBody (r : Rec) (rs' : List Rec) (X : List Char) :
    skipWs (dumpsBody (r :: rs') ++ X) = dumpsBody (r :: rs') ++ X := by
  obtain ⟨t, ht⟩ := dumpsBody_head r rs'
  rw [ht, List.cons_append, skipWs_not_ws _ _ (by decide)]

theorem parseItems_dump (rs : List Rec) :
    ∀ (fuel : Nat) (rest : List Char), rs ≠ [] → recsSize rs + 1 ≤ fuel →
      parseItems fuel (dumpsBody rs ++ '\n' :: ']' :: rest) = some (rs, rest) := by
  induction rs with
  | nil => intro fuel rest hne; exact absurd rfl hne
  | cons r rs' ih =>
    intro fuel rest _ hfuel
    cases fuel with
    | zero => simp [recsSize] at hfuel
    | succ f =>
      have hrlen : r.length ≤ f := by
        simp [recsSize, List.length_cons] at hfuel
        omega
      cases rs' with
      | nil =>
        rw [show dumpsBody [r] = dumpRec r from rfl]
        simp only [parseItems]
        rw [parseRecord_dump r f _ hrlen]
        rfl
      | cons r2 rs'' =>
        rw [show dumpsBody (r :: r2 :: rs'') ++ '\n' :: ']' :: rest =
            dumpRec r ++ (',' :: '\n' :: ' ' :: ' ' ::
              (dumpsBody (r2 :: rs'') ++ '\n' :: ']' :: rest)) from by
          simp [dumpsBody, itemSep, List.append_assoc]]
        simp only [parseItems]
        rw [parseRecord_dump r f _ hrlen]
        have ihh := ih f rest (by simp) (by
          simp [recsSize] at hfuel ⊢
          omega)
        show (parseItems f (skipWs ('\n' :: ' ' :: ' ' ::
            (dumpsBody (r2 :: rs'') ++ '\n' :: ']' :: rest)))).map
            (fun p => (r :: p.1, p.2)) = some (r :: r2 :: rs'', rest)
        rw [show skipWs ('\n' :: ' ' :: ' ' ::
            (dumpsBody (r2 :: rs'') ++ '\n' :: ']' :: rest)) =
            skipWs (dumpsBody (r2 :: rs'') ++ '\n' :: ']' :: rest) from rfl,
          skipWs_dumpsBody, ihh]
        rfl

theorem one_le_dumpEntry_length (e : String × FVal) : 1 ≤ (dumpEntry e).length := by
  obtain ⟨k, v⟩ := e
  simp [dumpEntry, encodeStr]

theorem dumpRecBody_length (r : Rec) : r.length ≤ (dumpRecBody r).length := by
  induction r with
  | nil => simp [dumpRecBody]
  | cons e r' ih =>
    cases r' with
    | nil => simpa [dumpRecBody] using one_le_dumpEntry_length e
    | cons e2 r'' =>
      have hlen : (dumpRecBody (e :: e2 :: r'')).length =
          (dumpEntry e).length + 6 + (dumpRecBody (e2 :: r'')).length := by
        rw [show dumpRecBody (e :: e2 :: r'') =
          (dumpEntry e ++ entrySep) ++ dumpRecBody (e2 :: r'') from rfl]
        simp [entrySep]
        omega
      have h1 := one_le_dumpEntry_length e
      rw [List.length_cons, hlen]
      omega

theorem dumpRec_length (r : Rec) : r.length + 1 ≤ (dumpRec r).length := by
  cases r with
  | nil => simp [dumpRec]
  | cons e r' =>
    have hlen : (dumpRec (e :: r')).length = (dumpRecBody (e :: r')).length + 10 := by
      rw [show dumpRec (e :: r') = '\x7b' :: '\n' :: ' ' :: ' ' :: ' ' :: ' ' ::
        (dumpRecBody (e :: r') ++ ['\n', ' ', ' ', '\x7d']) from rfl]
      simp
      try omega
    have h2 := dumpRecBody_length (e :: r')
    rw [hlen]
    simp only [List.length_cons] at h2 ⊢
    omega

theorem dumpsBody_length (rs : List Rec) : recsSize rs ≤ (dumpsBody rs).length := by
  induction rs with
  | nil => simp [recsSize, dumpsBody]
  | cons r rs' ih =>
    cases rs' with
    | nil =>
      have h1 := dumpRec_length r
      rw [show dumpsBody [r] = dumpRec r from rfl]
      simp [recsSize]
      omega
    | cons b rs'' =>
      have h1 := dumpRec_length r
      have h2 := ih
      have hlen : (dumpsBody (r :: b :: rs'')).length =
          (dumpRec r).length + 4 + (dumpsBody (b :: rs'')).length := by
        rw [show dumpsBody (r :: b :: rs'') =
          (dumpRec r ++ itemSep) ++ dumpsBody (b :: rs'') from rfl]
        simp [itemSep]
        omega
      simp only [recsSize, List.map_cons, List.sum_cons, List.length_cons] at h2 ⊢
      rw [hlen]
      omega

/-- Serializing and re-reading a record list is the identity: the text
`save_to_json` writes parses back to exactly the same field sequence. -/
theorem loads_dumps (rs : List Rec) : loads (dumps rs) = some rs := by
  cases rs with
  | nil => rfl
  | cons r rs' =>
    show loadsChars (dumpsChars (r :: rs')) = some (r :: rs')
    rw [show dumpsChars (r :: rs') =
      '[' :: '\n' :: ' ' :: ' ' :: (dumpsBody (r :: rs') ++ ['\n', ']']) from rfl]
    show (match skipWs (dumpsBody (r :: rs') ++ ['\n', ']']) with
      | [] => none
      | c2 :: cs2 =>
        if (c2 == ']') = true then (if (skipWs cs2).isEmpty then some [] else none)
        else
          match parseItems
              (('[' :: '\n' :: ' ' :: ' ' ::
                (dumpsBody (r :: rs') ++ ['\n', ']'])).length + 1) (c2 :: cs2) with
          | some (rs, rest) => if (skipWs rest).isEmpty then some rs else none
          | none => none) = some (r :: rs')
    rw [skipWs_dumpsBody]
    obtain ⟨t, ht⟩ := dumpsBody_head r rs'
    nth_rewrite 1 [ht]
    rw [List.cons_append]
    show (match parseItems
        (('[' :: '\n' :: ' ' :: ' ' ::
          (dumpsBody (r :: rs') ++ ['\n', ']'])).length + 1)
        ('\x7b' :: (t ++ ['\n', ']'])) with
      | some (rs, rest) => if (skipWs rest).isEmpty then some rs else none
      | none => none) = some (r :: rs')
    rw [show ('\x7b' :: (t ++ ['\n', ']']) : List Char) =
      dumpsBody (r :: rs') ++ ['\n', ']'] from by rw [← List.cons_append, ← ht]]
    have hfuel : recsSize (r :: rs') + 1 ≤
        ('[' :: '\n' :: ' ' :: ' ' ::
          (dumpsBody (r :: rs') ++ ['\n', ']'])).length + 1 := by
      have := dumpsBody_length (r :: rs')
      simp only [List.length_cons, List.length_append]
      omega
    rw [parseItems_dump (r :: rs') _ [] (by simp) hfuel]
    rfl

/-- C8: exporting any record sequence to the JSON form (the
`json.dump(..., indent=2, ensure_ascii=False)` text) and re-parsing that
JSON yields a record sequence equal to the input field-for-field and
order-for-order; string values, non-ASCII characters included, come back
verbatim. -/
theorem json_round_trip (rs : List Rec) : loads (dumps rs) = some rs :=
  loads_dumps rs

/-- C9: console printing truncates an over-100-character description to
its first 100 characters plus an ellipsis for display only; the stored
record is untouched, so the CSV row carries the full description and the
exported JSON re-parses to the untruncated records. -/
theorem display_truncation_only (recs : List Rec) (r : Rec) (d : String)
    (hr : r ∈ recs) (hd : recLookup r "description" = some (.str d))
    (hlen : 100 < d.length) :
    ("  Description: " ++ (strTake d 100 ++ "...")) ∈ printListings recs ∧
    (csvRowOf recordKeys r)[4]? = some d ∧
    loads (dumps recs) = some recs := by
  have hne : recs ≠ [] := by
    intro h
    subst h
    simp at hr
  have hlook : lookText r "description" = d := by
    simp [lookText, csvCell, hd, fvalText]
  have hdne : d ≠ "" := by
    intro h
    rw [h, show ("" : String).length = 0 from rfl] at hlen
    omega
  have hline : ("  Description: " ++ (strTake d 100 ++ "...")) ∈ printOne r := by
    simp [printOne, hlook, hdne, hlen]
  refine ⟨?_, ?_, loads_dumps recs⟩
  · rw [printListings, if_neg (by simp [hne])]
    exact List.mem_append_right _ (List.mem_flatMap.mpr ⟨r, hr, hline⟩)
  · simp [csvRowOf, recordKeys, csvCell, hd, fvalText]

/-- C9 witness: a 101-character description is displayed truncated while
CSV and JSON keep it whole. -/
theorem display_truncation_only_witness :
    ("  Description: " ++ (strTake c9Desc 100 ++ "...")) ∈ printListings [c9Rec] ∧
    (csvRowOf recordKeys c9Rec)[4]? = some c9Desc ∧
    loads (dumps [c9Rec]) = some [c9Rec] :=
  display_truncation_only [c9Rec] c9Rec c9Desc (by simp) rfl (by decide)

end LeadGather
